import Mathlib

/-!
Shallow embedding of the commit-message / status / search utilities of the
`newkub/git-cli` repository (an interactive TypeScript wrapper around git),
together with proofs of the behavioural properties claimed by its
specification.

Modelling conventions:
* JavaScript strings are Lean `String`s; `String.prototype.trim`,
  `split`, `substring`, `includes` are embedded as explicit list-of-char
  operations (`jsTrim`, `jsSplitChar`, `List.take`/`drop`, `List.contains`).
* JavaScript numbers that only ever hold small integers are `Nat`/`Int`.
* Fallible/asynchronous operations (child processes, network calls) are
  embedded by passing their outcome in explicitly (`Except`), and the
  side effects of a command handler are recorded as an explicit trace of
  the git argument vectors it spawns.
-/

namespace GitCli

/-- Embedding of JavaScript `String.prototype.trim` (leading and trailing
whitespace removed), computed on the character list. -/
def jsTrim (s : String) : String :=
  ⟨((s.toList.dropWhile Char.isWhitespace).reverse.dropWhile Char.isWhitespace).reverse⟩

/-- Embedding of JavaScript `String.prototype.split(sep)` for a one-character
separator, on character lists: every occurrence separates, empty pieces are
kept, and the empty string yields `[[]]`. -/
def jsSplitCharList (c : Char) : List Char → List (List Char)
  | [] => [[]]
  | x :: xs =>
    let r := jsSplitCharList c xs
    if x = c then [] :: r
    else
      match r with
      | [] => [[x]]
      | y :: ys => (x :: y) :: ys

/-- `s.split(c)` as a list of strings. -/
def jsSplitChar (c : Char) (s : String) : List String :=
  (jsSplitCharList c s.toList).map (fun l => ⟨l⟩)

theorem jsSplitCharList_ne_nil (c : Char) (l : List Char) :
    jsSplitCharList c l ≠ [] := by
  induction l with
  | nil => simp [jsSplitCharList]
  | cons x xs ih =>
    simp only [jsSplitCharList]
    split
    · simp
    · match h : jsSplitCharList c xs with
      | [] => exact absurd h ih
      | y :: ys => simp

/-- Every character of every piece of `jsSplitCharList c l` is a character
of `l`. -/
theorem jsSplitCharList_mem (c : Char) (l : List Char) :
    ∀ p ∈ jsSplitCharList c l, ∀ x ∈ p, x ∈ l := by
  induction l with
  | nil => intro p hp x hx; simp [jsSplitCharList] at hp; subst hp; simp at hx
  | cons a as ih =>
    intro p hp x hx
    simp only [jsSplitCharList] at hp
    by_cases hac : a = c
    · simp [hac] at hp
      rcases hp with hp | hp
      · subst hp; simp at hx
      · exact List.mem_cons_of_mem _ (ih p hp x hx)
    · simp [hac] at hp
      match hr : jsSplitCharList c as with
      | [] => exact absurd hr (jsSplitCharList_ne_nil c as)
      | y :: ys =>
        rw [hr] at hp
        simp at hp
        rcases hp with hp | hp
        · subst hp
          rcases List.mem_cons.mp hx with hx | hx
          · simp [hx]
          · exact List.mem_cons_of_mem _ (ih y (hr ▸ List.mem_cons_self y ys) x hx)
        · exact List.mem_cons_of_mem _ (ih p (hr ▸ List.mem_cons_of_mem y hp) x hx)

/-- `jsTrim s = ""` exactly when every character of `s` is whitespace. -/
theorem jsTrim_eq_empty_iff (s : String) :
    jsTrim s = "" ↔ ∀ x ∈ s.toList, x.isWhitespace := by
  unfold jsTrim
  constructor
  · intro h x hx
    have h0 : ((s.toList.dropWhile Char.isWhitespace).reverse.dropWhile
        Char.isWhitespace).reverse = [] := by
      have := congrArg String.toList h
      simpa using this
    rw [List.reverse_eq_nil_iff, List.dropWhile_eq_nil_iff] at h0
    by_cases hw : x.isWhitespace
    · exact hw
    · exfalso
      have hx' : x ∈ s.toList.dropWhile Char.isWhitespace := by
        have hdp : s.toList.dropWhile Char.isWhitespace =
            s.toList.dropWhile Char.isWhitespace := rfl
        -- x is not whitespace, so it survives the leading dropWhile
        -- use: dropWhile keeps any element not satisfying the predicate
        have : ∀ (l : List Char), x ∈ l → x ∈ l.dropWhile Char.isWhitespace := by
          intro l
          induction l with
          | nil => intro h; simp at h
          | cons a as ihl =>
            intro hmem
            by_cases ha : Char.isWhitespace a
            · rw [List.dropWhile_cons_of_pos ha]
              rcases List.mem_cons.mp hmem with rfl | hmem
              · exact absurd ha hw
              · exact ihl hmem
            · rw [List.dropWhile_cons_of_neg ha]
              exact hmem
        exact this _ hx
      have := h0 x (List.mem_reverse.mpr hx')
      exact hw this
  · intro h
    have h1 : s.data.dropWhile Char.isWhitespace = [] :=
      List.dropWhile_eq_nil_iff.mpr (fun x hx => h x hx)
    show ({ data := _ } : String) = ""
    rw [show s.toList = s.data from rfl, h1]
    rfl

/-!
## Commit message builder (`src/utils/useCommitMessage.ts`, `buildCommitMessage`)
-/

/-- Source translation of `buildCommitMessage`: optional `scope` and optional
`breakingDesc` are `Option String` (TypeScript `string | undefined`);
the JavaScript truthiness test `scope?.trim()` succeeds exactly when the
parameter is present and non-blank after trimming. -/
def buildCommitMessage (type : String) (scope : Option String) (message : String)
    (breaking : Bool) (breakingDesc : Option String := none) : String :=
  let withScope :=
    match scope with
    | some s => if jsTrim s ≠ "" then type ++ "(" ++ jsTrim s ++ ")" else type
    | none => type
  let base := withScope ++ ": " ++ message
  match breakingDesc with
  | some d =>
    if breaking ∧ jsTrim d ≠ "" then base ++ "\n\nBREAKING CHANGE: " ++ jsTrim d
    else base
  | none => base

/-- The builder contract exactly as the specification words it
(§4.3 Commit Message Builder): wrap a present non-blank scope in
parentheses after the type, always append `: subject`, and append the
`BREAKING CHANGE` footer iff `breaking` is true and the description is
present and non-blank after trimming. -/
def buildCommitMessageSpec (type : String) (scope : Option String) (subject : String)
    (breaking : Bool) (breakingDesc : Option String) : String :=
  let scopeWrapped :=
    match scope with
    | some s => if jsTrim s ≠ "" then "(" ++ jsTrim s ++ ")" else ""
    | none => ""
  let footer :=
    match breakingDesc with
    | some d =>
      if breaking = true ∧ jsTrim d ≠ "" then "\n\nBREAKING CHANGE: " ++ jsTrim d
      else ""
    | none => ""
  type ++ scopeWrapped ++ ": " ++ subject ++ footer

/-!
## git grep output parsing (`src/utils/useGitSearch.ts`)
-/

/-- One parsed `git grep -n` hit; the source record has fields
`file`, `line`, `content`, `match` (the last renamed `matchText` because
`match` is a Lean keyword). -/
structure GitSearchResult where
  file : String
  line : Nat
  content : String
  matchText : String
deriving Repr, DecidableEq

/-- Decimal value of a digit run, the embedding of
`parseInt(lineNum, 10)` on a string of ASCII digits. -/
def digitsVal (l : List Char) : Nat :=
  l.foldl (fun acc c => acc * 10 + (c.toNat - 48)) 0

/-- A character the JavaScript regular-expression `.` does not match
(line terminators). -/
def isJsLineTerminator (c : Char) : Bool :=
  c = '\n' ∨ c = '\r' ∨ c = ' ' ∨ c = ' '

/-- Embedding of the per-line match against `/^([^:]+):(\d+):(.*)$/`:
a nonempty colon-free file part, a colon, a nonempty digit run, a colon,
then arbitrary terminator-free content.  On success the source builds
`{ file, line: parseInt(lineNum, 10), content: content.trim(), match: content.trim() }`. -/
def matchGrepLine (line : String) : Option GitSearchResult :=
  let cs := line.toList
  let filePart := cs.takeWhile (fun c => c ≠ ':')
  match cs.dropWhile (fun c => c ≠ ':') with
  | [] => none
  | _ :: r1 =>
    if filePart = [] then none
    else
      let digits := r1.takeWhile Char.isDigit
      match r1.drop digits.length with
      | ':' :: content =>
        if digits = [] then none
        else if content.any isJsLineTerminator then none
        else
          some { file := ⟨filePart⟩, line := digitsVal digits,
                 content := jsTrim ⟨content⟩, matchText := jsTrim ⟨content⟩ }
      | _ => none

/-- One line of the grep output: skipped when blank, otherwise matched. -/
def grepHitOfLine (line : String) : Option GitSearchResult :=
  if jsTrim line = "" then none else matchGrepLine line

/-- Source translation of `parseGitGrepOutput`: return `[]` for blank
output, otherwise split on newlines, skip blank lines, and keep every
line matching `file:line:content`. -/
def parseGitGrepOutput (output : String) : List GitSearchResult :=
  if jsTrim output = "" then []
  else (jsSplitChar '\n' output).filterMap grepHitOfLine

/-- The error object `execa` rejects with when the spawned git process
fails: an exit code (absent when the process was killed by a signal)
plus the captured streams and message. -/
structure ExecError where
  exitCode : Option Int
  stdout : String
  stderr : String
  message : String
deriving Repr, DecidableEq

/-- Source translation of `executeGitGrep`, with the spawned process's
outcome passed in explicitly: on success the stdout is parsed; in the
catch block an error whose `exitCode` is `1` resolves to `[]` and every
other error is rethrown unchanged. -/
def executeGitGrep (spawnOutcome : Except ExecError String) :
    Except ExecError (List GitSearchResult) :=
  match spawnOutcome with
  | .ok stdout => .ok (parseGitGrepOutput stdout)
  | .error e => if e.exitCode = some 1 then .ok [] else .error e

/-- C2: for every type, optional scope, subject, breaking flag and optional
breaking description, `buildCommitMessage` produces `type(trimmedScope): subject`
when the scope is non-blank after trimming and `type: subject` otherwise, and
appends `\n\nBREAKING CHANGE: ` plus the trimmed description exactly when
`breaking` is true and the description is non-blank after trimming; in
particular `buildCommitMessage "feat" "api" "add endpoint" false` is
`"feat(api): add endpoint"`. -/
theorem buildCommitMessage_correct :
    (∀ (type : String) (scope : Option String) (message : String)
        (breaking : Bool) (breakingDesc : Option String),
      buildCommitMessage type scope message breaking breakingDesc =
        buildCommitMessageSpec type scope message breaking breakingDesc) ∧
    buildCommitMessage "feat" (some "api") "add endpoint" false none =
      "feat(api): add endpoint" ∧
    buildCommitMessage "fix" none "null check" true (some "changes return type") =
      "fix: null check\n\nBREAKING CHANGE: changes return type" := by
  refine ⟨?_, by decide, by decide⟩
  intro type scope message breaking breakingDesc
  unfold buildCommitMessage buildCommitMessageSpec
  cases scope with
  | none =>
    cases breakingDesc with
    | none => simp
    | some d =>
      by_cases hb : breaking = true ∧ jsTrim d ≠ "" <;>
        simp [hb, String.append_assoc]
  | some s =>
    by_cases hs : jsTrim s ≠ "" <;>
      cases breakingDesc with
      | none => simp [hs, String.append_assoc]
      | some d =>
        by_cases hb : breaking = true ∧ jsTrim d ≠ "" <;>
          simp [hs, hb, String.append_assoc]

/-- C4: `executeGitGrep` resolves to the empty result list (without
throwing) exactly when the spawned process failed with exit code `1`, and
rethrows every other error unchanged; shown both in general (as an
`if`-characterisation over all error objects) and on concrete exit-1 and
exit-128 errors. -/
theorem executeGitGrep_exit_code_one :
    (∀ e : ExecError, executeGitGrep (Except.error e) =
        if e.exitCode = some 1 then Except.ok [] else Except.error e) ∧
    executeGitGrep (Except.error ⟨some 1, "", "", "git grep exited 1"⟩) =
      Except.ok [] ∧
    executeGitGrep (Except.error ⟨some 128, "", "fatal: not a git repository", "failed"⟩) =
      Except.error ⟨some 128, "", "fatal: not a git repository", "failed"⟩ := by
  exact ⟨fun e => rfl, rfl, rfl⟩

/-- Helper: `takeWhile`/`dropWhile` on a list that starts with a block
satisfying the predicate followed by a failing element. -/
theorem takeWhile_block {p : Char → Bool} (A : List Char) (b : Char) (B : List Char)
    (hA : ∀ a ∈ A, p a = true) (hb : p b = false) :
    (A ++ b :: B).takeWhile p = A ∧ (A ++ b :: B).dropWhile p = b :: B := by
  induction A with
  | nil => simp [List.takeWhile, List.dropWhile, hb]
  | cons a as ih =>
    have ha : p a = true := hA a (List.mem_cons_self a as)
    have ih' := ih (fun x hx => hA x (List.mem_cons_of_mem a hx))
    simp [List.takeWhile, List.dropWhile, ha, ih'.1, ih'.2]

theorem toList_append (s t : String) : (s ++ t).toList = s.toList ++ t.toList := by
  cases s; cases t; rfl

/-- A grep output line of the exact shape `file:line:content` (nonempty
colon-free file, nonempty digit run, terminator-free content) is parsed
into the corresponding hit with the digit run's decimal value as line. -/
theorem matchGrepLine_shape (file num content : String)
    (hf : file.toList ≠ []) (hfc : ∀ c ∈ file.toList, c ≠ ':')
    (hn : num.toList ≠ []) (hnd : ∀ c ∈ num.toList, c.isDigit)
    (hc : ∀ c ∈ content.toList, isJsLineTerminator c = false) :
    matchGrepLine (file ++ ":" ++ num ++ ":" ++ content) =
      some ⟨file, digitsVal num.toList, jsTrim content, jsTrim content⟩ := by
  have hsplit : (file ++ ":" ++ num ++ ":" ++ content).toList =
      file.toList ++ ':' :: (num.toList ++ ':' :: content.toList) := by
    simp [toList_append]
  have h1 := takeWhile_block (p := fun c => decide (c ≠ ':')) file.toList ':'
    (num.toList ++ ':' :: content.toList)
    (fun a ha => by simpa using hfc a ha) (by decide)
  have h2 := takeWhile_block (p := Char.isDigit) num.toList ':' content.toList
    (fun a ha => hnd a ha) (by decide)
  have hany : content.toList.any isJsLineTerminator = false := by
    rw [List.any_eq_false]
    intro x hx
    simpa using hc x hx
  simp only [matchGrepLine, hsplit, h1.1, h1.2, h2.1, List.drop_left]
  simp [hf, hn, hany]
  exact ⟨hf, hn, fun x hx => hc x hx⟩

/-- `parseGitGrepOutput` is exactly the per-line filter-map over the
newline-split output: the leading blank-output guard adds nothing. -/
theorem parseGitGrepOutput_eq_filterMap (output : String) :
    parseGitGrepOutput output = (jsSplitChar '\n' output).filterMap grepHitOfLine := by
  unfold parseGitGrepOutput
  split
  case isTrue h =>
    symm
    rw [List.filterMap_eq_nil_iff]
    intro line hline
    unfold grepHitOfLine
    rw [if_pos]
    rw [jsTrim_eq_empty_iff]
    intro x hx
    rcases List.mem_map.mp hline with ⟨p, hp, rfl⟩
    have hx' : x ∈ p := hx
    exact (jsTrim_eq_empty_iff output).mp h x (jsSplitCharList_mem '\n' output.toList p hp x hx')
  case isFalse => rfl

/-- C5 counterexample: on the input line `a.ts:0:foo` (a line of the claimed
shape, its line field a run of digits) the parser RETURNS a hit whose `line`
field is `0`, which is not a positive integer — refuting the claim that every
returned hit's line field is positive. -/
theorem parseGitGrepOutput_zero_line :
    parseGitGrepOutput "a.ts:0:foo" =
      [{ file := "a.ts", line := 0, content := "foo", matchText := "foo" }] ∧
    ¬ (0 < (0 : Nat)) := by
  exact ⟨rfl, by decide⟩

/-- C5 (amended): `parseGitGrepOutput` is the order-preserving filter-map of
the newline-split input; every line of the shape `file:line:content` (file
nonempty and colon-free, line a nonempty digit run, content free of line
terminators) yields exactly one hit whose `line` field is the decimal value
of the digit run (a nonnegative integer, `0` when the run is all zeros), and
every blank or malformed line is dropped; the three lines
`a.ts:10:foo`, `not-a-match`, `b.ts:3:bar` yield exactly two hits in order. -/
theorem parseGitGrepOutput_correct :
    (∀ output : String,
      parseGitGrepOutput output = (jsSplitChar '\n' output).filterMap grepHitOfLine) ∧
    (∀ file num content : String,
      file.toList ≠ [] → (∀ c ∈ file.toList, c ≠ ':') →
      num.toList ≠ [] → (∀ c ∈ num.toList, c.isDigit) →
      (∀ c ∈ content.toList, isJsLineTerminator c = false) →
      matchGrepLine (file ++ ":" ++ num ++ ":" ++ content) =
        some ⟨file, digitsVal num.toList, jsTrim content, jsTrim content⟩) ∧
    parseGitGrepOutput "a.ts:10:foo\nnot-a-match\nb.ts:3:bar" =
      [{ file := "a.ts", line := 10, content := "foo", matchText := "foo" },
       { file := "b.ts", line := 3, content := "bar", matchText := "bar" }] := by
  exact ⟨parseGitGrepOutput_eq_filterMap, matchGrepLine_shape, rfl⟩

/-- C5 witness: the amended theorem applied at concrete inputs, with all
hypotheses discharged by computation. -/
theorem parseGitGrepOutput_correct_witness :
    matchGrepLine ("src.rs" ++ ":" ++ "42" ++ ":" ++ "let x = 1;") =
      some ⟨"src.rs", digitsVal "42".toList, jsTrim "let x = 1;", jsTrim "let x = 1;"⟩ :=
  parseGitGrepOutput_correct.2.1 "src.rs" "42" "let x = 1;"
    (by decide) (by decide) (by decide) (by decide) (by decide)

/-!
## Change grouping (`groupChangesByType`, `src/utils/useGitSearch.ts` and
`src/commands/commit.ts`)
-/

/-- `line.substring(0, 2)`: the two-character status code of one porcelain
status line. -/
def lineStatus (line : String) : String := ⟨line.toList.take 2⟩

/-- `line.substring(3)`: the file path of one porcelain status line. -/
def lineFile (line : String) : String := ⟨line.toList.drop 3⟩

/-- The fixed precedence table mapping a status code to a conventional
commit type: contains `A` → feat, else `M` → fix, else `D` → remove,
else `R` → refactor, else misc. -/
def changeTypeOf (status : String) : String :=
  if status.toList.contains 'A' then "feat"
  else if status.toList.contains 'M' then "fix"
  else if status.toList.contains 'D' then "remove"
  else if status.toList.contains 'R' then "refactor"
  else "misc"

/-- The commit type of a whole status line. -/
def lineType (line : String) : String := changeTypeOf (lineStatus line)

/-- JavaScript `Map` update used by the grouping loop: push `f` onto the
bucket of `t`, creating the bucket at the end on first sight (a `Map`
preserves insertion order). -/
def pushGroup : List (String × List String) → String → String → List (String × List String)
  | [], t, f => [(t, [f])]
  | (t0, fs) :: rest, t, f =>
    if t0 = t then (t0, fs ++ [f]) :: rest
    else (t0, fs) :: pushGroup rest t f

/-- Source translation of `groupChangesByType`: fold the status lines into
insertion-ordered buckets keyed by commit type (the `GitChangeGroup`
record `{ type, files }` is modelled as a pair). -/
def groupChangesByType (statusLines : List String) : List (String × List String) :=
  statusLines.foldl (fun g line => pushGroup g (lineType line) (lineFile line)) []

/-- First-seen-order deduplication of a list of types (the key order of a
JavaScript `Map` built by repeated insertion). -/
def firstSeen (ts : List String) : List String :=
  ts.foldl (fun acc t => if t ∈ acc then acc else acc ++ [t]) []

/-- The files of a given type, in input order. -/
def typeFiles (statusLines : List String) (t : String) : List String :=
  (statusLines.filter (fun l => lineType l = t)).map lineFile

theorem firstSeen_aux_mem (ts : List String) :
    ∀ (acc : List String) (x : String),
      x ∈ ts.foldl (fun acc t => if t ∈ acc then acc else acc ++ [t]) acc ↔
        x ∈ acc ∨ x ∈ ts := by
  induction ts with
  | nil => intro acc x; simp
  | cons t ts ih =>
    intro acc x
    simp only [List.foldl_cons]
    by_cases ht : t ∈ acc
    · rw [if_pos ht, ih]
      constructor
      · rintro (h | h)
        · exact Or.inl h
        · exact Or.inr (List.mem_cons_of_mem t h)
      · rintro (h | h)
        · exact Or.inl h
        · rcases List.mem_cons.mp h with rfl | h
          · exact Or.inl ht
          · exact Or.inr h
    · rw [if_neg ht, ih]
      simp only [List.mem_append, List.mem_singleton, List.mem_cons]
      tauto

theorem mem_firstSeen (ts : List String) (x : String) :
    x ∈ firstSeen ts ↔ x ∈ ts := by
  rw [firstSeen, firstSeen_aux_mem]
  simp

theorem firstSeen_aux_nodup (ts : List String) :
    ∀ acc : List String, acc.Nodup →
      (ts.foldl (fun acc t => if t ∈ acc then acc else acc ++ [t]) acc).Nodup := by
  induction ts with
  | nil => intro acc h; simpa
  | cons t ts ih =>
    intro acc h
    simp only [List.foldl_cons]
    by_cases ht : t ∈ acc
    · rw [if_pos ht]; exact ih acc h
    · rw [if_neg ht]
      refine ih _ ?_
      rw [List.nodup_append]
      exact ⟨h, List.nodup_singleton t, by
        intro a ha hmem
        rw [List.mem_singleton] at hmem
        exact ht (hmem ▸ ha)⟩

theorem nodup_firstSeen (ts : List String) : (firstSeen ts).Nodup :=
  firstSeen_aux_nodup ts [] List.nodup_nil

theorem firstSeen_append_singleton (ts : List String) (t : String) :
    firstSeen (ts ++ [t]) =
      if t ∈ ts then firstSeen ts else firstSeen ts ++ [t] := by
  rw [firstSeen, List.foldl_append]
  simp only [List.foldl_cons, List.foldl_nil]
  rw [show (ts.foldl (fun acc t => if t ∈ acc then acc else acc ++ [t]) []) =
      firstSeen ts from rfl]
  by_cases h : t ∈ ts
  · rw [if_pos ((mem_firstSeen ts t).mpr h), if_pos h]
  · rw [if_neg (fun hc => h ((mem_firstSeen ts t).mp hc)), if_neg h]

theorem pushGroup_of_not_mem (g : List (String × List String)) (t f : String)
    (h : t ∉ g.map Prod.fst) : pushGroup g t f = g ++ [(t, [f])] := by
  induction g with
  | nil => rfl
  | cons p rest ih =>
    obtain ⟨t0, fs⟩ := p
    simp only [List.map_cons, List.mem_cons] at h
    push_neg at h
    simp only [pushGroup]
    rw [if_neg (fun hc => h.1 hc.symm), ih h.2]
    rfl

theorem map_extend_of_not_mem (g : List (String × List String)) (t f : String)
    (h : t ∉ g.map Prod.fst) :
    g.map (fun p => if p.1 = t then (p.1, p.2 ++ [f]) else p) = g := by
  induction g with
  | nil => rfl
  | cons p rest ih =>
    obtain ⟨t0, fs⟩ := p
    simp only [List.map_cons, List.mem_cons] at h
    push_neg at h
    simp only [List.map_cons]
    rw [if_neg (fun hc => h.1 hc.symm), ih h.2]

theorem pushGroup_of_mem (g : List (String × List String)) (t f : String)
    (hnd : (g.map Prod.fst).Nodup) (h : t ∈ g.map Prod.fst) :
    pushGroup g t f = g.map (fun p => if p.1 = t then (p.1, p.2 ++ [f]) else p) := by
  induction g with
  | nil => simp at h
  | cons p rest ih =>
    obtain ⟨t0, fs⟩ := p
    simp only [List.map_cons, List.nodup_cons] at hnd
    simp only [pushGroup, List.map_cons]
    by_cases h0 : t0 = t
    · subst h0
      rw [if_pos rfl, if_pos rfl, map_extend_of_not_mem rest t0 f hnd.1]
    · rw [if_neg h0, if_neg h0]
      simp only [List.map_cons, List.mem_cons] at h
      rcases h with h | h
      · exact absurd h.symm h0
      · rw [ih hnd.2 h]

theorem typeFiles_append_singleton (lines : List String) (l : String) (t : String) :
    typeFiles (lines ++ [l]) t =
      typeFiles lines t ++ (if lineType l = t then [lineFile l] else []) := by
  unfold typeFiles
  rw [List.filter_append, List.map_append]
  congr 1
  by_cases h : lineType l = t <;> simp [h]

theorem typeFiles_eq_nil_of_not_mem (lines : List String) (t : String)
    (h : t ∉ lines.map lineType) : typeFiles lines t = [] := by
  unfold typeFiles
  rw [List.filter_eq_nil_iff.mpr, List.map_nil]
  intro l hl
  simp only [decide_eq_true_eq]
  intro hc
  exact h (List.mem_map.mpr ⟨l, hl, hc⟩)

/-- The grouping loop, characterised: the buckets appear in first-seen
insertion order of types, and each bucket holds exactly the files of its
type in input order. -/
theorem groupChangesByType_eq (lines : List String) :
    groupChangesByType lines =
      (firstSeen (lines.map lineType)).map (fun t => (t, typeFiles lines t)) := by
  induction lines using List.reverseRecOn with
  | nil => rfl
  | append_singleton lines l ih =>
    have hstep : groupChangesByType (lines ++ [l]) =
        pushGroup (groupChangesByType lines) (lineType l) (lineFile l) := by
      unfold groupChangesByType
      rw [List.foldl_append, List.foldl_cons, List.foldl_nil]
    rw [hstep, ih]
    simp only [List.map_append, List.map_cons, List.map_nil]
    have hkeys : ((firstSeen (lines.map lineType)).map
        (fun t => (t, typeFiles lines t))).map Prod.fst =
          firstSeen (lines.map lineType) := by
      rw [List.map_map]
      exact (List.map_congr_left (fun a _ => rfl)).trans (List.map_id _)
    by_cases hmem : lineType l ∈ lines.map lineType
    · rw [pushGroup_of_mem _ _ _ (by rw [hkeys]; exact nodup_firstSeen _)
        (by rw [hkeys]; exact (mem_firstSeen _ _).mpr hmem)]
      rw [List.map_map, firstSeen_append_singleton, if_pos hmem]
      apply List.map_congr_left
      intro t ht
      by_cases h0 : t = lineType l
      · subst h0
        simp [Function.comp, typeFiles_append_singleton]
      · have h0r : ¬ lineType l = t := fun hc => h0 hc.symm
        simp [Function.comp, h0, h0r, typeFiles_append_singleton]
    · rw [pushGroup_of_not_mem _ _ _
        (by rw [hkeys]; exact fun hc => hmem ((mem_firstSeen _ _).mp hc))]
      rw [firstSeen_append_singleton, if_neg hmem, List.map_append]
      congr 1
      · apply List.map_congr_left
        intro t ht
        have h0r : ¬ lineType l = t := fun hc =>
          hmem (hc ▸ (mem_firstSeen _ _).mp ht)
        simp [typeFiles_append_singleton, h0r]
      · simp only [List.map_cons, List.map_nil]
        rw [typeFiles_append_singleton, if_pos rfl,
          typeFiles_eq_nil_of_not_mem lines _ hmem]
        rfl

/-- C3: `groupChangesByType` assigns each file the type given by the fixed
precedence `A` → feat, `M` → fix, `D` → remove, `R` → refactor, else misc
(`changeTypeOf`), returns the groups in first-seen-type insertion order with
each group's files in input order, and on
`["A  new.ts", " M old.ts", " D gone.ts"]` yields exactly
feat/fix/remove groups in that order with one file each. -/
theorem groupChangesByType_correct :
    (∀ statusLines : List String,
      groupChangesByType statusLines =
        (firstSeen (statusLines.map lineType)).map
          (fun t => (t, typeFiles statusLines t))) ∧
    (∀ status : String,
      changeTypeOf status =
        if status.toList.contains 'A' then "feat"
        else if status.toList.contains 'M' then "fix"
        else if status.toList.contains 'D' then "remove"
        else if status.toList.contains 'R' then "refactor"
        else "misc") ∧
    groupChangesByType ["A  new.ts", " M old.ts", " D gone.ts"] =
      [("feat", ["new.ts"]), ("fix", ["old.ts"]), ("remove", ["gone.ts"])] := by
  exact ⟨groupChangesByType_eq, fun _ => rfl, rfl⟩

/-!
## Porcelain status parsing (`src/utils/useCommitOptions.ts`,
`parseGitStatusFiles` and `displayFileChangesInColumns`)
-/

/-- One parsed status entry; `color` holds the picocolors function name
(the source stores `color.name`). -/
structure GitFileStatus where
  status : String
  filename : String
  displayText : String
  color : String
  description : String
deriving Repr, DecidableEq

/-- The `switch (status)` of `parseGitStatusFiles`: color name and
description for one two-character code, defaulting to gray and the empty
description for every unrecognised code. -/
def statusColorDesc (status : String) : String × String :=
  if status = "??" then ("red", "(untracked)")
  else if status = " M" then ("yellow", "(modified)")
  else if status = "M " then ("green", "(staged)")
  else if status = "A " then ("green", "(added)")
  else if status = "D " then ("red", "(deleted)")
  else if status = "MM" then ("cyan", "(modified & staged)")
  else ("gray", "")

/-- Source translation of `parseGitStatusFiles`; the picocolors styling
functions are passed in as `colorize` (color name and text to wrapped
text). -/
def parseGitStatusFiles (colorize : String → String → String)
    (statusOutput : String) : List GitFileStatus :=
  let files := (jsSplitChar '\n' statusOutput).filter (fun l => l ≠ "")
  files.map (fun line =>
    let status : String := ⟨line.toList.take 2⟩
    let filename : String := ⟨line.toList.drop 3⟩
    let cd := statusColorDesc status
    { status := status, filename := filename,
      displayText := "  " ++ colorize cd.1 (if status = "??" then "?" else jsTrim status)
        ++ " " ++ filename ++ " " ++ colorize "gray" cd.2,
      color := cd.1, description := cd.2 })

/-- Embedding of JavaScript `String.prototype.startsWith`. -/
def jsStartsWith (s head : String) : Bool :=
  head.toList.isPrefixOf s.toList

/-- The grouping used by `displayFileChangesInColumns`: the four disjoint
filters (staged, modified, untracked, mixed) as one category function;
codes matching no filter are in no display group. -/
def statusCategory (status : String) : Option String :=
  if jsStartsWith status "M " ∨ jsStartsWith status "A " ∨ jsStartsWith status "D " then
    some "staged"
  else if jsStartsWith status " M" ∨ jsStartsWith status " D" then some "modified"
  else if status = "??" then some "untracked"
  else if status = "MM" ∨ status = "MD" ∨ status = "AM" then some "mixed"
  else none

/-- C7: the status-code classification is a pure total function of the
two-character code: `??` → untracked, ` M` → modified, `M ` → staged,
`MM` → mixed; every unrecognised code gets the default gray styling with
an empty description instead of failing; and empty porcelain output parses
to the empty entry list (for every styling function). -/
theorem parseGitStatusFiles_classification :
    (∀ colorize, parseGitStatusFiles colorize "" = []) ∧
    statusCategory "??" = some "untracked" ∧
    statusCategory " M" = some "modified" ∧
    statusCategory "M " = some "staged" ∧
    statusCategory "MM" = some "mixed" ∧
    statusColorDesc "??" = ("red", "(untracked)") ∧
    statusColorDesc " M" = ("yellow", "(modified)") ∧
    statusColorDesc "M " = ("green", "(staged)") ∧
    statusColorDesc "MM" = ("cyan", "(modified & staged)") ∧
    (∀ status : String,
      status ∉ ["??", " M", "M ", "A ", "D ", "MM"] →
        statusColorDesc status = ("gray", "")) := by
  refine ⟨fun colorize => rfl, by decide, by decide, by decide, by decide,
    rfl, rfl, rfl, rfl, ?_⟩
  intro status h
  simp only [List.mem_cons, List.not_mem_nil, or_false] at h
  push_neg at h
  obtain ⟨h1, h2, h3, h4, h5, h6⟩ := h
  unfold statusColorDesc
  rw [if_neg h1, if_neg h2, if_neg h3, if_neg h4, if_neg h5, if_neg h6]

/-- C7 witness: the classification theorem applied to the unrecognised
code `R ` (a rename), which falls back to the gray default. -/
theorem parseGitStatusFiles_classification_witness :
    statusColorDesc "R " = ("gray", "") :=
  parseGitStatusFiles_classification.2.2.2.2.2.2.2.2.2 "R " (by decide)

/-!
## Text generation dispatch (`src/utils/useTextGeneration.ts`)
-/

/-- The provider configuration; `provider` is a plain runtime string
(values other than the three known ones reach the `default` branch). -/
structure AIProviderConfig where
  provider : String
  model : Option String := none

/-- A value thrown out of the generation pipeline: either an `Error`
constructed by `generateText` itself (carrying its message) or whatever
the underlying provider call rejected with (carried unmodified). -/
inductive GenFailure (ε : Type) where
  | thrown (message : String)
  | external (e : ε)
deriving Repr, DecidableEq

/-- One provider invocation: provider name, model id, prompt. -/
structure ProviderCall where
  provider : String
  model : String
  prompt : String
deriving Repr, DecidableEq

/-- Run one call against the abstract provider backend `net`, recording it
in the call trace and carrying a rejection through unmodified. -/
def callProvider {ε : Type} (net : ProviderCall → Except ε String)
    (provider model prompt : String) :
    Except (GenFailure ε) String × List ProviderCall :=
  (match net ⟨provider, model, prompt⟩ with
   | .ok text => .ok text
   | .error e => .error (.external e),
   [⟨provider, model, prompt⟩])

/-- `generateWithOpenAI`, with the default parameter `model = "gpt-4"`
applied when the caller passes no model. -/
def generateWithOpenAI {ε : Type} (net : ProviderCall → Except ε String)
    (prompt : String) (model : Option String) :
    Except (GenFailure ε) String × List ProviderCall :=
  callProvider net "openai" (model.getD "gpt-4") prompt

/-- `generateWithAnthropic`, defaulting to `claude-3-haiku-20240307`. -/
def generateWithAnthropic {ε : Type} (net : ProviderCall → Except ε String)
    (prompt : String) (model : Option String) :
    Except (GenFailure ε) String × List ProviderCall :=
  callProvider net "anthropic" (model.getD "claude-3-haiku-20240307") prompt

/-- `generateWithXAI`, defaulting to `grok-3-beta`. -/
def generateWithXAI {ε : Type} (net : ProviderCall → Except ε String)
    (prompt : String) (model : Option String) :
    Except (GenFailure ε) String × List ProviderCall :=
  callProvider net "xai" (model.getD "grok-3-beta") prompt

/-- Source translation of `generateText`: switch on the provider string,
dispatch to the matching helper, and throw
`Unsupported AI provider: <provider>` in the `default` branch without
touching the backend. -/
def generateText {ε : Type} (net : ProviderCall → Except ε String)
    (prompt : String) (config : AIProviderConfig) :
    Except (GenFailure ε) String × List ProviderCall :=
  if config.provider = "openai" then generateWithOpenAI net prompt config.model
  else if config.provider = "anthropic" then generateWithAnthropic net prompt config.model
  else if config.provider = "xai" then generateWithXAI net prompt config.model
  else (.error (.thrown ("Unsupported AI provider: " ++ config.provider)), [])

/-- The `COMMIT_PROMPT` template. -/
def COMMIT_PROMPT (diff : String) : String :=
  "Generate a commit message for these changes:\n\n" ++ diff ++
    "\n\nThe message should follow conventional commits format and be under 72 characters."

/-- The `ENHANCE_PROMPT` template (the source template literal, tabs and
newlines included). -/
def ENHANCE_PROMPT (userMessage : String) : String :=
  "Please enhance this commit message to follow conventional commit format and improve the English:\n\t\n\tOriginal message: \"" ++
    userMessage ++
    "\"\n\t\n\tRequirements:\n\t1. Use conventional commit format (type: description)\n\t2. Make it clear and professional English\n\t3. Keep the original meaning\n\t4. Use appropriate commit type (feat, fix, docs, style, refactor, test, chore, etc.)\n\t\n\tReturn only the enhanced commit message, nothing else."

/-- `generateCommitMessage` instantiates `generateText` on the commit
prompt built from the diff. -/
def generateCommitMessage {ε : Type} (net : ProviderCall → Except ε String)
    (diff : String) (config : AIProviderConfig) :
    Except (GenFailure ε) String × List ProviderCall :=
  generateText net (COMMIT_PROMPT diff) config

/-- `enhanceCommitMessage` instantiates `generateText` on the enhancement
prompt built from the user's message. -/
def enhanceCommitMessage {ε : Type} (net : ProviderCall → Except ε String)
    (userMessage : String) (config : AIProviderConfig) :
    Except (GenFailure ε) String × List ProviderCall :=
  generateText net (ENHANCE_PROMPT userMessage) config

/-- The default model id of each known provider. -/
def defaultModelOf (provider : String) : String :=
  if provider = "openai" then "gpt-4"
  else if provider = "anthropic" then "claude-3-haiku-20240307"
  else "grok-3-beta"

/-- C8: for an unknown provider `generateText` throws
`Unsupported AI provider: …` with an empty call trace (no provider call is
made); for each of the three known providers it performs exactly one call
to that provider (so there is no retry) and its result is the backend's
result with a rejection carried through unmodified; `generateCommitMessage`
and `enhanceCommitMessage` are `generateText` on their prompt templates. -/
theorem generateText_dispatch {ε : Type} :
    ∀ (net : ProviderCall → Except ε String) (prompt : String)
      (config : AIProviderConfig),
    (config.provider ∉ ["openai", "anthropic", "xai"] →
      generateText net prompt config =
        (.error (.thrown ("Unsupported AI provider: " ++ config.provider)), [])) ∧
    (config.provider ∈ ["openai", "anthropic", "xai"] →
      (generateText net prompt config).2 =
        [⟨config.provider, config.model.getD (defaultModelOf config.provider), prompt⟩] ∧
      ∀ e : ε, net ⟨config.provider, config.model.getD (defaultModelOf config.provider), prompt⟩ =
          .error e →
        (generateText net prompt config).1 = .error (.external e)) ∧
    (∀ diff, generateCommitMessage net diff config =
      generateText net (COMMIT_PROMPT diff) config) ∧
    (∀ msg, enhanceCommitMessage net msg config =
      generateText net (ENHANCE_PROMPT msg) config) := by
  intro net prompt config
  obtain ⟨p, m⟩ := config
  refine ⟨?_, ?_, fun _ => rfl, fun _ => rfl⟩
  · intro h
    simp only [List.mem_cons, List.not_mem_nil, or_false] at h
    push_neg at h
    obtain ⟨h1, h2, h3⟩ := h
    unfold generateText
    rw [if_neg h1, if_neg h2, if_neg h3]
  · intro h
    simp only [List.mem_cons, List.not_mem_nil, or_false] at h
    rcases h with h | h | h
    · subst h
      refine ⟨rfl, fun e he => ?_⟩
      have he' : net ⟨"openai", m.getD "gpt-4", prompt⟩ = Except.error e := he
      simp [generateText, generateWithOpenAI, callProvider, he']
    · subst h
      refine ⟨rfl, fun e he => ?_⟩
      have he' : net ⟨"anthropic", m.getD "claude-3-haiku-20240307", prompt⟩ =
        Except.error e := he
      simp [generateText, generateWithAnthropic, callProvider, he']
    · subst h
      refine ⟨rfl, fun e he => ?_⟩
      have he' : net ⟨"xai", m.getD "grok-3-beta", prompt⟩ = Except.error e := he
      simp [generateText, generateWithXAI, callProvider, he']

/-- C8 witness: the dispatch theorem at a concrete anthropic
configuration whose backend rejects, with both membership hypotheses and
the rejection hypothesis discharged concretely. -/
theorem generateText_dispatch_witness :
    (generateText (ε := String) (fun _ => Except.error "boom") "diff text"
        ⟨"anthropic", none⟩).1 = Except.error (GenFailure.external "boom") :=
  ((generateText_dispatch (fun _ => Except.error "boom") "diff text"
      ⟨"anthropic", none⟩).2.1 (by decide)).2 "boom" rfl

/-!
## Commit log parsing (`showCommitLog`, log viewer module)
-/

theorem jsSplitCharList_of_not_mem (c : Char) (l : List Char) (h : c ∉ l) :
    jsSplitCharList c l = [l] := by
  induction l with
  | nil => rfl
  | cons x xs ih =>
    simp only [List.mem_cons] at h
    push_neg at h
    simp only [jsSplitCharList]
    rw [if_neg (fun hc => h.1 hc.symm), ih h.2]

theorem jsSplitCharList_append (c : Char) (a b : List Char) (h : c ∉ a) :
    jsSplitCharList c (a ++ c :: b) = a :: jsSplitCharList c b := by
  induction a with
  | nil => simp [jsSplitCharList]
  | cons x xs ih =>
    simp only [List.mem_cons] at h
    push_neg at h
    simp only [List.cons_append, jsSplitCharList, List.append_eq]
    rw [if_neg (fun hc => h.1 hc.symm), ih h.2]

/-- One parsed commit record of the log viewer: the destructuring
`const [hash, message, author, isoDate] = line.split("|")` leaves a field
`undefined` (here `none`) when the line has too few parts; `shortHash` is a
copy of `hash` and the `Date` constructor argument is kept as the raw
string. -/
structure GitCommit where
  hash : Option String
  shortHash : Option String
  message : Option String
  author : Option String
  isoDate : Option String
deriving Repr, DecidableEq

/-- Source translation of the per-line parsing in `showCommitLog`:
split the `%h|%s|%an|%ai` formatted line on every literal pipe and take
the first four parts. -/
def parseLogLine (line : String) : GitCommit :=
  let parts := jsSplitChar '|' line
  { hash := parts.get? 0, shortHash := parts.get? 0, message := parts.get? 1,
    author := parts.get? 2, isoDate := parts.get? 3 }

/-- `showCommitLog`'s mapping over the whole `git log` output: split on
newlines, drop empty lines, parse each line. -/
def showCommitLogCommits (logOutput : String) : List GitCommit :=
  ((jsSplitChar '\n' logOutput).filter (fun l => l ≠ "")).map parseLogLine

/-- C9: a log line `hash|subject|author|date` whose fields contain no
literal pipe is recovered exactly; a subject containing a literal `|`
desynchronises the split — on
`abc1234|feat: add a|b matrix|alice|2024-05-06 10:00:00 +0000` the parsed
subject is truncated to `feat: add a`, the author field receives the
subject's tail `b matrix`, and the date field receives the author
`alice`. -/
theorem parseLogLine_fields :
    (∀ h s a d : String,
      '|' ∉ h.toList → '|' ∉ s.toList → '|' ∉ a.toList → '|' ∉ d.toList →
      parseLogLine (h ++ "|" ++ s ++ "|" ++ a ++ "|" ++ d) =
        ⟨some h, some h, some s, some a, some d⟩) ∧
    parseLogLine "abc1234|feat: add a|b matrix|alice|2024-05-06 10:00:00 +0000" =
      ⟨some "abc1234", some "abc1234", some "feat: add a", some "b matrix",
        some "alice"⟩ := by
  refine ⟨?_, rfl⟩
  intro h s a d hh hs ha hd
  have hsplit : (h ++ "|" ++ s ++ "|" ++ a ++ "|" ++ d).toList =
      h.toList ++ '|' :: (s.toList ++ '|' :: (a.toList ++ '|' :: d.toList)) := by
    simp [toList_append]
  unfold parseLogLine jsSplitChar
  rw [hsplit, jsSplitCharList_append _ _ _ hh, jsSplitCharList_append _ _ _ hs,
    jsSplitCharList_append _ _ _ ha, jsSplitCharList_of_not_mem _ _ hd]
  rfl

/-- C9 witness: the field-recovery theorem applied to a concrete
pipe-free log line. -/
theorem parseLogLine_fields_witness :
    parseLogLine ("9fceb02" ++ "|" ++ "fix: null check" ++ "|" ++ "bob" ++ "|" ++
        "2024-05-06 10:00:00 +0000") =
      ⟨some "9fceb02", some "9fceb02", some "fix: null check", some "bob",
        some "2024-05-06 10:00:00 +0000"⟩ :=
  parseLogLine_fields.1 "9fceb02" "fix: null check" "bob" "2024-05-06 10:00:00 +0000"
    (by decide) (by decide) (by decide) (by decide)

/-!
## Configuration deep merge (`src/utils/useConfig.ts`, `deepMerge`)
-/

/-- Runtime JavaScript values as far as the configuration merge observes
them: `undef` is the JavaScript `undefined` (a key explicitly set to
`undefined` is distinct from an absent key when enumerating `source`);
objects are insertion-ordered association lists with unique keys, as
JavaScript objects are. -/
inductive JsValue where
  | undef
  | null
  | bool (b : Bool)
  | num (n : Int)
  | str (s : String)
  | arr (elems : List JsValue)
  | obj (fields : List (String × JsValue))

/-- Property read `o[k]`: the first binding of `k`, `none` when absent. -/
def lookupV : List (String × JsValue) → String → Option JsValue
  | [], _ => none
  | (k0, v) :: rest, k => if k0 = k then some v else lookupV rest k

/-- Property write `o[k] = v`: overwrite in place, or append a new key. -/
def setV : List (String × JsValue) → String → JsValue → List (String × JsValue)
  | [], k, v => [(k, v)]
  | (k0, v0) :: rest, k, v =>
    if k0 = k then (k, v) :: rest else (k0, v0) :: setV rest k v

/-- The body of `deepMerge`: `result` starts as a copy of `target` (here
`orig`), and each `source` entry is skipped when `undefined`, merged
recursively when both it and `orig[key]` are non-array objects, and
assigned wholesale otherwise.  The truthy-object test
`v && typeof v === "object" && !Array.isArray(v)` holds exactly for
`JsValue.obj` values. -/
def deepMergeGo (orig result : List (String × JsValue)) :
    List (String × JsValue) → List (String × JsValue)
  | [] => result
  | (_k, JsValue.undef) :: rest => deepMergeGo orig result rest
  | (k, JsValue.obj sf) :: rest =>
    (match lookupV orig k with
     | some (JsValue.obj tf) =>
       deepMergeGo orig (setV result k (JsValue.obj (deepMergeGo tf tf sf))) rest
     | _ => deepMergeGo orig (setV result k (JsValue.obj sf)) rest)
  | (k, JsValue.null) :: rest => deepMergeGo orig (setV result k JsValue.null) rest
  | (k, JsValue.bool b) :: rest => deepMergeGo orig (setV result k (JsValue.bool b)) rest
  | (k, JsValue.num n) :: rest => deepMergeGo orig (setV result k (JsValue.num n)) rest
  | (k, JsValue.str s) :: rest => deepMergeGo orig (setV result k (JsValue.str s)) rest
  | (k, JsValue.arr a) :: rest => deepMergeGo orig (setV result k (JsValue.arr a)) rest
termination_by src => sizeOf src

/-- Source translation of `deepMerge(target, source)`. -/
def deepMerge (target source : List (String × JsValue)) : List (String × JsValue) :=
  deepMergeGo target target source

theorem lookupV_setV_self (l : List (String × JsValue)) (k : String) (v : JsValue) :
    lookupV (setV l k v) k = some v := by
  induction l with
  | nil => simp [setV, lookupV]
  | cons p rest ih =>
    obtain ⟨k0, v0⟩ := p
    by_cases h : k0 = k
    · simp [setV, h, lookupV]
    · simp [setV, h, lookupV, ih]

theorem lookupV_setV_ne (l : List (String × JsValue)) (k k1 : String) (v : JsValue)
    (h : k1 ≠ k) : lookupV (setV l k v) k1 = lookupV l k1 := by
  have h' : ¬ k = k1 := fun hc => h hc.symm
  induction l with
  | nil => simp [setV, lookupV, h']
  | cons p rest ih =>
    obtain ⟨k0, v0⟩ := p
    by_cases h0 : k0 = k
    · subst h0
      simp [setV, lookupV, h']
    · simp only [setV, if_neg h0, lookupV]
      by_cases h1 : k0 = k1
      · simp [h1]
      · simp [h1, ih]

/-- With unique keys, a key bound later in the list is not found earlier:
the head key does not occur in the tail. -/
theorem lookupV_eq_none_of_not_mem (rest : List (String × JsValue)) (k : String)
    (h : k ∉ rest.map Prod.fst) : lookupV rest k = none := by
  induction rest with
  | nil => rfl
  | cons q qrest ih =>
    obtain ⟨kq, vq⟩ := q
    simp only [List.map_cons, List.mem_cons] at h
    push_neg at h
    simp only [lookupV, if_neg (fun hc : kq = k => h.1 hc.symm)]
    exact ih h.2

/-- The value `deepMerge` stores for one source entry `(k, sv)` with
`sv` defined: the recursive merge when both `sv` and `orig[k]` are
objects, `sv` itself otherwise. -/
def mergeEntryVal (orig : List (String × JsValue)) (k : String) (sv : JsValue) : JsValue :=
  match sv with
  | JsValue.obj sf =>
    (match lookupV orig k with
     | some (JsValue.obj tf) => JsValue.obj (deepMergeGo tf tf sf)
     | _ => JsValue.obj sf)
  | _ => sv

/-- One non-`undefined` step of the merge loop assigns
`mergeEntryVal orig k sv` at `k` and continues. -/
theorem deepMergeGo_cons_step (orig result : List (String × JsValue)) (k0 : String)
    (sv : JsValue) (rest : List (String × JsValue)) (h : sv ≠ JsValue.undef) :
    deepMergeGo orig result ((k0, sv) :: rest) =
      deepMergeGo orig (setV result k0 (mergeEntryVal orig k0 sv)) rest := by
  cases sv with
  | undef => exact absurd rfl h
  | obj sf =>
    rw [show deepMergeGo orig result ((k0, JsValue.obj sf) :: rest) =
        (match lookupV orig k0 with
         | some (JsValue.obj tf) =>
           deepMergeGo orig (setV result k0 (JsValue.obj (deepMergeGo tf tf sf))) rest
         | _ => deepMergeGo orig (setV result k0 (JsValue.obj sf)) rest)
      from by rw [deepMergeGo]]
    cases ho : lookupV orig k0 with
    | none => rw [show mergeEntryVal orig k0 (JsValue.obj sf) = JsValue.obj sf
        from by unfold mergeEntryVal; rw [ho]]
    | some tv =>
      cases tv with
      | obj tf =>
        rw [show mergeEntryVal orig k0 (JsValue.obj sf) =
            JsValue.obj (deepMergeGo tf tf sf) from by unfold mergeEntryVal; rw [ho]]
      | undef => rw [show mergeEntryVal orig k0 (JsValue.obj sf) = JsValue.obj sf
          from by unfold mergeEntryVal; rw [ho]]
      | null => rw [show mergeEntryVal orig k0 (JsValue.obj sf) = JsValue.obj sf
          from by unfold mergeEntryVal; rw [ho]]
      | bool b => rw [show mergeEntryVal orig k0 (JsValue.obj sf) = JsValue.obj sf
          from by unfold mergeEntryVal; rw [ho]]
      | num n => rw [show mergeEntryVal orig k0 (JsValue.obj sf) = JsValue.obj sf
          from by unfold mergeEntryVal; rw [ho]]
      | str s => rw [show mergeEntryVal orig k0 (JsValue.obj sf) = JsValue.obj sf
          from by unfold mergeEntryVal; rw [ho]]
      | arr a => rw [show mergeEntryVal orig k0 (JsValue.obj sf) = JsValue.obj sf
          from by unfold mergeEntryVal; rw [ho]]
  | null => rw [deepMergeGo]; rfl
  | bool b => rw [deepMergeGo]; rfl
  | num n => rw [deepMergeGo]; rfl
  | str s => rw [deepMergeGo]; rfl
  | arr a => rw [deepMergeGo]; rfl

/-- Key-wise invariant of the merge loop: with unique source keys, the
final value at `k` is the target's (`result`'s) value when the source has
no defined value at `k`, and `mergeEntryVal` of the source value
otherwise. -/
theorem deepMergeGo_lookup (orig : List (String × JsValue)) :
    ∀ (src result : List (String × JsValue)) (k : String),
      (src.map Prod.fst).Nodup →
      lookupV (deepMergeGo orig result src) k =
        (match lookupV src k with
         | none => lookupV result k
         | some JsValue.undef => lookupV result k
         | some sv => some (mergeEntryVal orig k sv)) := by
  intro src
  induction src with
  | nil => intro result k _; simp [deepMergeGo, lookupV]
  | cons p rest ih =>
    intro result k hnd
    obtain ⟨k0, sv⟩ := p
    simp only [List.map_cons, List.nodup_cons] at hnd
    by_cases hk : k0 = k
    · subst hk
      have hrest : lookupV rest k0 = none := lookupV_eq_none_of_not_mem rest k0 hnd.1
      have hsrc : lookupV ((k0, sv) :: rest) k0 = some sv := by
        simp [lookupV]
      rw [hsrc]
      by_cases hu : sv = JsValue.undef
      · subst hu
        rw [show deepMergeGo orig result ((k0, JsValue.undef) :: rest) =
            deepMergeGo orig result rest from by rw [deepMergeGo]]
        rw [ih result k0 hnd.2, hrest]
      · rw [deepMergeGo_cons_step orig result k0 sv rest hu,
          ih _ k0 hnd.2, hrest, lookupV_setV_self]
        cases sv with
        | undef => exact absurd rfl hu
        | obj sf => rfl
        | null => rfl
        | bool b => rfl
        | num n => rfl
        | str s => rfl
        | arr a => rfl
    · have hsrc : lookupV ((k0, sv) :: rest) k = lookupV rest k := by
        simp [lookupV, hk]
      rw [hsrc]
      by_cases hu : sv = JsValue.undef
      · subst hu
        rw [show deepMergeGo orig result ((k0, JsValue.undef) :: rest) =
            deepMergeGo orig result rest from by rw [deepMergeGo]]
        rw [ih result k hnd.2]
      · rw [deepMergeGo_cons_step orig result k0 sv rest hu, ih _ k hnd.2]
        cases hr : lookupV rest k with
        | none => simp [lookupV_setV_ne _ _ _ _ (fun hc => hk hc.symm)]
        | some rv =>
          cases rv with
          | undef => simp [lookupV_setV_ne _ _ _ _ (fun hc => hk hc.symm)]
          | obj sf => rfl
          | null => rfl
          | bool b => rfl
          | num n => rfl
          | str s => rfl
          | arr a => rfl

/-- The merged value the specification predicts for one key, given the
target's and the source's values there: absent and `undefined` source
values keep the target value, two non-array objects merge recursively,
everything else is the source value wholesale. -/
def mergeSpecVal (tv : Option JsValue) : Option JsValue → Option JsValue
  | none => tv
  | some JsValue.undef => tv
  | some (JsValue.obj sf) =>
    (match tv with
     | some (JsValue.obj tf) => some (JsValue.obj (deepMerge tf sf))
     | _ => some (JsValue.obj sf))
  | some sv => some sv

/-- Key-wise characterisation of `deepMerge` for source objects with
unique keys (every JavaScript object has unique keys). -/
theorem deepMerge_lookup (target source : List (String × JsValue)) (k : String)
    (hnd : (source.map Prod.fst).Nodup) :
    lookupV (deepMerge target source) k =
      mergeSpecVal (lookupV target k) (lookupV source k) := by
  rw [deepMerge, deepMergeGo_lookup target source target k hnd]
  cases hs : lookupV source k with
  | none => rfl
  | some sv =>
    cases sv with
    | obj sf =>
      show some (mergeEntryVal target k (JsValue.obj sf)) =
        mergeSpecVal (lookupV target k) (some (JsValue.obj sf))
      cases ht : lookupV target k with
      | none =>
        rw [show mergeEntryVal target k (JsValue.obj sf) = JsValue.obj sf
          from by unfold mergeEntryVal; rw [ht]]
        rfl
      | some tv =>
        cases tv with
        | obj tf =>
          rw [show mergeEntryVal target k (JsValue.obj sf) =
              JsValue.obj (deepMergeGo tf tf sf) from by unfold mergeEntryVal; rw [ht]]
          rfl
        | undef =>
          rw [show mergeEntryVal target k (JsValue.obj sf) = JsValue.obj sf
            from by unfold mergeEntryVal; rw [ht]]
          rfl
        | null =>
          rw [show mergeEntryVal target k (JsValue.obj sf) = JsValue.obj sf
            from by unfold mergeEntryVal; rw [ht]]
          rfl
        | bool b =>
          rw [show mergeEntryVal target k (JsValue.obj sf) = JsValue.obj sf
            from by unfold mergeEntryVal; rw [ht]]
          rfl
        | num n =>
          rw [show mergeEntryVal target k (JsValue.obj sf) = JsValue.obj sf
            from by unfold mergeEntryVal; rw [ht]]
          rfl
        | str s =>
          rw [show mergeEntryVal target k (JsValue.obj sf) = JsValue.obj sf
            from by unfold mergeEntryVal; rw [ht]]
          rfl
        | arr a =>
          rw [show mergeEntryVal target k (JsValue.obj sf) = JsValue.obj sf
            from by unfold mergeEntryVal; rw [ht]]
          rfl
    | undef => rfl
    | null => rfl
    | bool b => rfl
    | num n => rfl
    | str s => rfl
    | arr a => rfl
/-- The `defaultConfig` object of `src/types/config.ts`, as a JavaScript
value. -/
def defaultConfigJs : List (String × JsValue) := [
  ("ai", JsValue.obj [
    ("provider", JsValue.obj [("provider", JsValue.str "openai")]),
    ("enabled", JsValue.bool true),
    ("commitPrompt", JsValue.str "Generate a conventional commit message for these changes:")]),
  ("commit", JsValue.obj [
    ("useAI", JsValue.bool true),
    ("conventionalCommits", JsValue.bool true),
    ("maxMessageLength", JsValue.num 72),
    ("types", JsValue.arr [JsValue.str "feat", JsValue.str "fix", JsValue.str "docs",
      JsValue.str "style", JsValue.str "refactor", JsValue.str "perf", JsValue.str "test",
      JsValue.str "build", JsValue.str "ci", JsValue.str "chore", JsValue.str "revert"]),
    ("requireScope", JsValue.bool false)]),
  ("branch", JsValue.obj [
    ("defaultBranch", JsValue.str "main"),
    ("prefixes", JsValue.arr [JsValue.str "feature/", JsValue.str "bugfix/",
      JsValue.str "hotfix/", JsValue.str "release/"]),
    ("namingConvention", JsValue.str "kebab-case"),
    ("autoDeleteMerged", JsValue.bool false)]),
  ("ui", JsValue.obj [
    ("theme", JsValue.str "auto"),
    ("animations", JsValue.bool true),
    ("emojis", JsValue.bool true),
    ("colors", JsValue.obj [
      ("primary", JsValue.str "#3b82f6"),
      ("success", JsValue.str "#10b981"),
      ("warning", JsValue.str "#f59e0b"),
      ("error", JsValue.str "#ef4444")])]),
  ("hooks", JsValue.obj []),
  ("aliases", JsValue.obj []),
  ("project", JsValue.obj []),
  ("remotes", JsValue.obj []),
  ("workflow", JsValue.obj [
    ("gitflow", JsValue.bool false),
    ("autoSync", JsValue.bool false),
    ("syncBranches", JsValue.arr [JsValue.str "main", JsValue.str "develop"]),
    ("releaseBranches", JsValue.arr [JsValue.str "main", JsValue.str "master"])]),
  ("integrations", JsValue.obj [])]

/-- `defaultConfigJs` with `commit.useAI` flipped to `false` and every
other binding untouched. -/
def mergedConfigJs : List (String × JsValue) := [
  ("ai", JsValue.obj [
    ("provider", JsValue.obj [("provider", JsValue.str "openai")]),
    ("enabled", JsValue.bool true),
    ("commitPrompt", JsValue.str "Generate a conventional commit message for these changes:")]),
  ("commit", JsValue.obj [
    ("useAI", JsValue.bool false),
    ("conventionalCommits", JsValue.bool true),
    ("maxMessageLength", JsValue.num 72),
    ("types", JsValue.arr [JsValue.str "feat", JsValue.str "fix", JsValue.str "docs",
      JsValue.str "style", JsValue.str "refactor", JsValue.str "perf", JsValue.str "test",
      JsValue.str "build", JsValue.str "ci", JsValue.str "chore", JsValue.str "revert"]),
    ("requireScope", JsValue.bool false)]),
  ("branch", JsValue.obj [
    ("defaultBranch", JsValue.str "main"),
    ("prefixes", JsValue.arr [JsValue.str "feature/", JsValue.str "bugfix/",
      JsValue.str "hotfix/", JsValue.str "release/"]),
    ("namingConvention", JsValue.str "kebab-case"),
    ("autoDeleteMerged", JsValue.bool false)]),
  ("ui", JsValue.obj [
    ("theme", JsValue.str "auto"),
    ("animations", JsValue.bool true),
    ("emojis", JsValue.bool true),
    ("colors", JsValue.obj [
      ("primary", JsValue.str "#3b82f6"),
      ("success", JsValue.str "#10b981"),
      ("warning", JsValue.str "#f59e0b"),
      ("error", JsValue.str "#ef4444")])]),
  ("hooks", JsValue.obj []),
  ("aliases", JsValue.obj []),
  ("project", JsValue.obj []),
  ("remotes", JsValue.obj []),
  ("workflow", JsValue.obj [
    ("gitflow", JsValue.bool false),
    ("autoSync", JsValue.bool false),
    ("syncBranches", JsValue.arr [JsValue.str "main", JsValue.str "develop"]),
    ("releaseBranches", JsValue.arr [JsValue.str "main", JsValue.str "master"])]),
  ("integrations", JsValue.obj [])]

/-- C6 counterexample: for the concrete target `{ a: 1 }` and source
`{ a: undefined }` the source value is not a non-array object, yet
`deepMerge` does NOT replace the target value with the source value
wholesale — the key is skipped and `a` keeps the value `1`, so the result
differs from the `{ a: undefined }` the claim predicts. -/
theorem deepMerge_undefined_skipped :
    deepMerge [("a", JsValue.num 1)] [("a", JsValue.undef)] = [("a", JsValue.num 1)] ∧
    [("a", JsValue.num 1)] ≠ [("a", JsValue.undef)] := by
  constructor
  · simp [deepMerge, deepMergeGo]
  · intro h
    have h2 : JsValue.num 1 = JsValue.undef := congrArg Prod.snd (List.head_eq_of_cons_eq h)
    exact JsValue.noConfusion h2

/-- C6 (amended): `deepMerge` recurses key-wise exactly when both the
source value and the target value are non-array objects, and otherwise —
provided the source value is defined — replaces the target value with the
source value wholesale (arrays replaced, never concatenated); a key whose
source value is `undefined` is skipped, keeping the target value
(`mergeSpecVal` states all three cases); merging `{ commit: { useAI: false } }`
onto the default configuration changes only `commit.useAI` and leaves every
other default key unchanged. -/
theorem deepMerge_characterisation :
    (∀ (target source : List (String × JsValue)) (k : String),
      (source.map Prod.fst).Nodup →
      lookupV (deepMerge target source) k =
        mergeSpecVal (lookupV target k) (lookupV source k)) ∧
    deepMerge defaultConfigJs [("commit", JsValue.obj [("useAI", JsValue.bool false)])] =
      mergedConfigJs := by
  refine ⟨fun target source k h => deepMerge_lookup target source k h, ?_⟩
  simp [defaultConfigJs, mergedConfigJs, deepMerge, deepMergeGo, lookupV, setV]

/-- C6 witness: the characterisation applied to concrete objects with
the no-duplicate-keys hypothesis discharged by computation. -/
theorem deepMerge_characterisation_witness :
    lookupV (deepMerge [("a", JsValue.num 1)] [("b", JsValue.str "x")]) "a" =
      mergeSpecVal (lookupV [("a", JsValue.num 1)] "a")
        (lookupV [("b", JsValue.str "x")] "a") :=
  deepMerge_characterisation.1 [("a", JsValue.num 1)] [("b", JsValue.str "x")] "a"
    (by decide)

theorem lookupV_isSome_of_mem (l : List (String × JsValue)) (k : String)
    (h : k ∈ l.map Prod.fst) : (lookupV l k).isSome = true := by
  induction l with
  | nil => simp at h
  | cons p rest ih =>
    obtain ⟨k0, v0⟩ := p
    by_cases h0 : k0 = k
    · simp [lookupV, h0]
    · simp only [List.map_cons, List.mem_cons] at h
      rcases h with h | h
      · exact absurd h.symm h0
      · simp only [lookupV, if_neg h0]
        exact ih h

/-- C10: `deepMerge` never removes a default — every key of the target is
present in the result, and a key whose source value is absent or
`undefined` keeps exactly the target's value, so an override set to
`undefined` can never clear a default setting. -/
theorem deepMerge_never_removes_defaults :
    ∀ (target source : List (String × JsValue)) (k : String),
      (source.map Prod.fst).Nodup →
      k ∈ target.map Prod.fst →
      (lookupV (deepMerge target source) k).isSome = true ∧
      ((lookupV source k = none ∨ lookupV source k = some JsValue.undef) →
        lookupV (deepMerge target source) k = lookupV target k) := by
  intro target source k hnd hmem
  have hchar := deepMerge_lookup target source k hnd
  constructor
  · rw [hchar]
    cases hs : lookupV source k with
    | none => exact lookupV_isSome_of_mem target k hmem
    | some sv =>
      cases sv with
      | undef => exact lookupV_isSome_of_mem target k hmem
      | obj sf =>
        cases ht : lookupV target k with
        | none => rfl
        | some tv => cases tv <;> rfl
      | null => rfl
      | bool b => rfl
      | num n => rfl
      | str s => rfl
      | arr a => rfl
  · intro hs
    rw [hchar]
    rcases hs with hs | hs <;> rw [hs] <;> rfl

/-- C10 witness: the frame theorem at a concrete target and source where
the looked-up key is absent from the source. -/
theorem deepMerge_never_removes_defaults_witness :
    (lookupV (deepMerge [("a", JsValue.num 1)] [("b", JsValue.str "x")]) "a").isSome = true ∧
    ((lookupV [("b", JsValue.str "x")] "a" = none ∨
        lookupV [("b", JsValue.str "x")] "a" = some JsValue.undef) →
      lookupV (deepMerge [("a", JsValue.num 1)] [("b", JsValue.str "x")]) "a" =
        lookupV [("a", JsValue.num 1)] "a") :=
  deepMerge_never_removes_defaults [("a", JsValue.num 1)] [("b", JsValue.str "x")] "a"
    (by decide) (by decide)

/-!
## Commit flow (`src/commands/commit.ts`, `commitCommand`, and
`parseCommitArgs` from `src/utils/useCommitOptions.ts`)
-/

/-- The parsed commit options; booleans start `false` (JavaScript
`undefined` is falsy) and `parseCommitArgs` starts from `{ ai: true }`.
`mode` is a runtime string: the parser only ever stores one of the four
accepted mode names. -/
structure CommitOptions where
  ai : Bool := false
  no_ai : Bool := false
  message : Option String := none
  type : Option String := none
  scope : Option String := none
  breaking : Bool := false
  help : Bool := false
  mode : Option String := none

/-- JavaScript truthiness of an optional string: present and nonempty. -/
def truthyOptStr : Option String → Bool
  | none => false
  | some s => s != ""

/-- The argument loop of `parseCommitArgs`: one `switch` step per
argument, value-taking flags consuming the next argument when present
(and doing nothing at the end of the list), and `--mode` accepting only
the four known mode names. -/
def parseCommitArgsGo : CommitOptions → List String → CommitOptions
  | opts, [] => opts
  | opts, arg :: rest =>
    if arg = "-a" ∨ arg = "--ai" then parseCommitArgsGo { opts with ai := true } rest
    else if arg = "--no-ai" then
      parseCommitArgsGo { opts with no_ai := true, ai := false } rest
    else if arg = "-m" ∨ arg = "--message" then
      (match rest with
       | v :: rest2 => parseCommitArgsGo { opts with message := some v } rest2
       | [] => opts)
    else if arg = "-t" ∨ arg = "--type" then
      (match rest with
       | v :: rest2 => parseCommitArgsGo { opts with type := some v } rest2
       | [] => opts)
    else if arg = "-s" ∨ arg = "--scope" then
      (match rest with
       | v :: rest2 => parseCommitArgsGo { opts with scope := some v } rest2
       | [] => opts)
    else if arg = "-b" ∨ arg = "--breaking" then
      parseCommitArgsGo { opts with breaking := true } rest
    else if arg = "--mode" then
      (match rest with
       | v :: rest2 =>
         parseCommitArgsGo
           (if v = "autocommit" ∨ v = "prompt-enhance" ∨ v = "ai-generate" ∨
               v = "interactive"
            then { opts with mode := some v } else opts) rest2
       | [] => opts)
    else if arg = "-h" ∨ arg = "--help" then
      parseCommitArgsGo { opts with help := true } rest
    else parseCommitArgsGo opts rest

/-- Source translation of `parseCommitArgs`: AI is enabled by default. -/
def parseCommitArgs (args : List String) : CommitOptions :=
  parseCommitArgsGo { ai := true } args

/-- One spawned git invocation, as its argument vector. -/
abbrev GitCmd := List String

/-- What one run of (part of) the commit flow did: the git processes it
spawned, in order, and the console messages it printed. -/
structure CommitFlowTrace where
  calls : List GitCmd
  msgs : List String

/-- The traces of the five mode handlers the dispatcher can enter
(`createAutoCommit`, `createPromptEnhanceCommit`, `createAICommit`,
`createInteractiveCommit`, `createCherryPickCommit`).  They are left
abstract: the claim under scrutiny holds for every behaviour of the
downstream handlers. -/
structure CommitModeFlows where
  autocommit : CommitFlowTrace
  promptEnhance : CommitFlowTrace
  aiGenerate : CommitFlowTrace
  interactive : CommitFlowTrace
  cherryPick : CommitFlowTrace

/-- Source translation of `commitCommand`'s control flow, with the
porcelain status output and the user's interactive mode choice passed in
explicitly (`selectedMode = none` is a cancelled prompt).  Recorded
messages are the dispatcher's own `intro` banner and the
no-changes notice; spinner/status decorations are not modelled.  The
`hasChanges` helper is `status.trim().length > 0`; the early return fires
on no changes unless the (unreachable from `parseCommitArgs`) mode
`cherry-pick` is set; a truthy `--message` value commits directly. -/
def commitCommand (args : List String) (statusOutput : String)
    (flows : CommitModeFlows) (selectedMode : Option String) : CommitFlowTrace :=
  let options := parseCommitArgs args
  if options.help then { calls := [], msgs := [] }
  else
    let introMsgs := ["📝 Git Commit Tool"]
    let statusCalls : List GitCmd := [["status", "--porcelain"]]
    if ¬ ((jsTrim statusOutput).length > 0) ∧ options.mode ≠ some "cherry-pick" then
      { calls := statusCalls, msgs := introMsgs ++ ["ℹ️  No changes to commit"] }
    else if truthyOptStr options.message then
      { calls := statusCalls ++ [["commit", "-m", options.message.getD ""]],
        msgs := introMsgs }
    else
      let chosen : Option CommitOptions :=
        if ¬ truthyOptStr options.mode ∧ options.ai = false ∧ options.no_ai = false then
          (match selectedMode with
           | none => none
           | some m => some { options with mode := some m })
        else some options
      match chosen with
      | none => { calls := statusCalls, msgs := introMsgs }
      | some opts =>
        let tail :=
          if opts.mode = some "autocommit" then flows.autocommit
          else if opts.mode = some "prompt-enhance" then flows.promptEnhance
          else if opts.mode = some "ai-generate" then flows.aiGenerate
          else if opts.mode = some "interactive" then flows.interactive
          else if opts.mode = some "cherry-pick" then flows.cherryPick
          else if opts.ai = true ∧ opts.no_ai = false then flows.aiGenerate
          else flows.interactive
        { calls := statusCalls ++ tail.calls, msgs := introMsgs ++ tail.msgs }

/-- The state-changing git invocations in a trace: `add`, `commit` and
`cherry-pick` (everything else the flow spawns is read-only). -/
def gitMutationCalls (calls : List GitCmd) : List GitCmd :=
  calls.filter (fun c =>
    c.head? = some "add" ∨ c.head? = some "commit" ∨ c.head? = some "cherry-pick")

/-- `parseCommitArgs` can never produce the mode `cherry-pick`: the
`--mode` switch accepts only the four interactive mode names. -/
theorem parseCommitArgsGo_mode_ne : ∀ (opts : CommitOptions) (args : List String),
    opts.mode ≠ some "cherry-pick" →
    (parseCommitArgsGo opts args).mode ≠ some "cherry-pick" := by
  intro opts args
  induction opts, args using parseCommitArgsGo.induct
  case case1 opts =>
    intro h
    rw [parseCommitArgsGo.eq_def]
    exact h
  case case11 opts v rest2 c1 c2 c3 c4 c5 c6 ih =>
    intro h
    have hstep : parseCommitArgsGo opts ("--mode" :: v :: rest2) =
        parseCommitArgsGo
          (if v = "autocommit" ∨ v = "prompt-enhance" ∨ v = "ai-generate" ∨
              v = "interactive"
           then { opts with mode := some v } else opts) rest2 := by
      rw [parseCommitArgsGo.eq_def]
      simp
    rw [hstep]
    apply ih
    by_cases hv : v = "autocommit" ∨ v = "prompt-enhance" ∨ v = "ai-generate" ∨
        v = "interactive"
    · rw [if_pos hv]
      intro hc
      rcases hv with hv | hv | hv | hv <;> subst hv <;> simp at hc
    · rw [if_neg hv]
      exact h
  all_goals
    intro h
    rw [parseCommitArgsGo.eq_def]
    simp_all

/-- `parseCommitArgs` never yields mode `cherry-pick`. -/
theorem parseCommitArgs_mode_ne (args : List String) :
    (parseCommitArgs args).mode ≠ some "cherry-pick" :=
  parseCommitArgsGo_mode_ne { ai := true } args (by simp)

/-- C1: when `git status --porcelain` is blank, the commit flow performs
zero state-changing git invocations (`add`, `commit`, `cherry-pick`) for
every combination of command-line flags producible by `parseCommitArgs`,
every behaviour of the downstream mode handlers and every interactive
choice — and, unless `--help` short-circuits the flow before the check,
it reports the no-changes notice and terminates. -/
theorem commitCommand_no_changes :
    ∀ (args : List String) (statusOutput : String) (flows : CommitModeFlows)
      (selectedMode : Option String),
      jsTrim statusOutput = "" →
      gitMutationCalls (commitCommand args statusOutput flows selectedMode).calls = [] ∧
      ((parseCommitArgs args).help = false →
        "ℹ️  No changes to commit" ∈
          (commitCommand args statusOutput flows selectedMode).msgs) := by
  intro args statusOutput flows selectedMode hst
  by_cases hh : (parseCommitArgs args).help
  · constructor
    · simp [commitCommand, hh, gitMutationCalls]
    · intro hc
      rw [hc] at hh
      exact absurd hh (by simp)
  · have hlen : ¬ ((jsTrim statusOutput).length > 0) := by
      rw [hst]
      simp
    have hmode : (parseCommitArgs args).mode ≠ some "cherry-pick" :=
      parseCommitArgs_mode_ne args
    constructor
    · simp [commitCommand, hh, hlen, hmode, gitMutationCalls]
    · intro _
      simp [commitCommand, hh, hlen, hmode]

/-- C1 witness: the no-changes theorem at concrete arguments `["--ai"]`,
an empty porcelain output, arbitrary (empty-trace) downstream handlers and
a cancelled mode prompt, with the blank-status hypothesis discharged by
computation. -/
theorem commitCommand_no_changes_witness :
    jsTrim "" = "" ∧
    (gitMutationCalls (commitCommand ["--ai"] ""
        ⟨⟨[], []⟩, ⟨[], []⟩, ⟨[], []⟩, ⟨[], []⟩, ⟨[], []⟩⟩ none).calls = [] ∧
      ((parseCommitArgs ["--ai"]).help = false →
        "ℹ️  No changes to commit" ∈ (commitCommand ["--ai"] ""
          ⟨⟨[], []⟩, ⟨[], []⟩, ⟨[], []⟩, ⟨[], []⟩, ⟨[], []⟩⟩ none).msgs)) :=
  ⟨rfl, commitCommand_no_changes ["--ai"] ""
    ⟨⟨[], []⟩, ⟨[], []⟩, ⟨[], []⟩, ⟨[], []⟩, ⟨[], []⟩⟩ none rfl⟩

end GitCli
